import Mathlib

/-!
Formal model of the Tiger rating engine (`src/calculate_ratings.py`).

The embedding is a shallow one: the numeric type of the Python floats is an
arbitrary linear ordered field `α` (instantiated with `ℚ` for executable
checks and with `ℝ` where the transcendental functions matter), external
library routines (`np.log`, `scipy.stats.norm.cdf` / `t.cdf`) are abstract
function parameters carried in the configuration, and the pseudo-random
stream produced by `np.random.default_rng` is an explicit input stream of
standardized draws (a draw of `rng.normal(loc, scale)` is modelled as
`loc + scale * z` where `z` is the next value of the stream).

Sections below follow the source:
* data model (`Game`, `RatingConfig`),
* the game-weighting function of `rating_attempt` (lines 80-96),
* the per-iteration prediction/error/accumulator computations (lines 97-131),
* the search loop of `rating_attempt` as a step function on an explicit
  state (lines 132-176),
* the Error Model Calibrator of `main` (lines 479-521) and the tie-bound
  search (lines 528-564).
-/

namespace Tiger

/-- A completed game of the primary network, as consumed by `rating_attempt`:
`homeIdx`/`awayIdx` are the network-team indexes (`id_to_index`),
`homeAllIdx`/`awayAllIdx` the all-team-list indexes (`id_to_all_index`),
together with the scores, the season, and the neutral-site / preseason flags. -/
structure Game (α : Type) (n : ℕ) where
  homeIdx : Fin n
  awayIdx : Fin n
  homeAllIdx : ℕ
  awayAllIdx : ℕ
  homeScore : α
  awayScore : α
  season : ℤ
  isNeutralSite : Bool
  isPreseason : Bool
deriving DecidableEq

/-- The arguments of `rating_attempt` that stay fixed during one attempt.
`centrality` models the dict `game_network_edge_centrality` (keyed by
(node, node, parallel-edge key) triples of the multigraph), `log` models
`np.log`, and `Phi` models the standard-normal CDF underlying
`stats.norm.cdf(x, loc, scale) = Phi((x - loc)/scale)`. -/
structure RatingConfig (α : Type) (n : ℕ) where
  seasonToRank : ℤ
  preseasonWeight : α
  priorSeasonWeight : α
  priorPreseasonWeight : α
  usePreseason : Bool
  centrality : ℕ × ℕ × ℕ → α
  scoreMean : α
  marginStdev : α
  iterationsBeforeReset : ℕ
  iterationsBeforeStop : ℕ
  ratingAdjustmentScale : α
  log : α → α
  Phi : α → α

variable {α : Type} [LinearOrderedField α] {n : ℕ}

/-- Policy weight of a game (`rating_attempt`, lines 81-94): 1.0 for a game of
the target season (replaced by `preseason_weight` for a preseason game when
preseason tracking is on), `prior_season_weight` for a strictly earlier season
(replaced by `prior_preseason_weight` for a preseason game when tracking is
on), and 0.0 for a strictly later season. -/
def policyWeight (cfg : RatingConfig α n) (g : Game α n) : α :=
  if g.season = cfg.seasonToRank then
    if cfg.usePreseason && g.isPreseason then cfg.preseasonWeight else 1
  else if g.season < cfg.seasonToRank then
    if cfg.usePreseason && g.isPreseason then cfg.priorPreseasonWeight
    else cfg.priorSeasonWeight
  else 0

/-- Key used for the edge-centrality lookup (line 96):
`(min(home_all_idx, away_all_idx), max(home_all_idx, away_all_idx), 0)`,
i.e. parallel edge 0 of the unordered team pair. -/
def centralityKey (g : Game α n) : ℕ × ℕ × ℕ :=
  (min g.homeAllIdx g.awayAllIdx, max g.homeAllIdx g.awayAllIdx, 0)

/-- Final ("graph-theory") weight of a game (line 96):
`cur_game_weight / np.log(1 / centrality[key])`. -/
def gtWeight (cfg : RatingConfig α n) (g : Game α n) : α :=
  policyWeight cfg g / cfg.log (1 / cfg.centrality (centralityKey g))

/-- Predicted home score (line 99): the code writes the home-advantage term as
`int(not cur_game_is_neutral_site) * cur_home_advantage / 2.0`. -/
def predictedOffScore (cfg : RatingConfig α n) (off defR : Fin n → α)
    (adv : α) (g : Game α n) : α :=
  max (off g.homeIdx + (if g.isNeutralSite then 0 else 1) * adv / 2
        - defR g.awayIdx + cfg.scoreMean) 0

/-- Predicted away score (line 100). -/
def predictedDefScore (cfg : RatingConfig α n) (off defR : Fin n → α)
    (adv : α) (g : Game α n) : α :=
  max (off g.awayIdx - (if g.isNeutralSite then 0 else 1) * adv / 2
        - defR g.homeIdx + cfg.scoreMean) 0

/-- Predicted margin (line 101). -/
def predictedMargin (cfg : RatingConfig α n) (off defR : Fin n → α)
    (adv : α) (g : Game α n) : α :=
  predictedOffScore cfg off defR adv g - predictedDefScore cfg off defR adv g

/-- Actual margin of a game (line 103). -/
def actualMargin (g : Game α n) : α :=
  g.homeScore - g.awayScore

/-- Spec-side formulation of the §4.2 policy weight, written from the spec's
four bullet cases (current non-preseason, current preseason with tracking
enabled, strictly earlier season with its preseason variant, strictly later
season). -/
def specPolicyWeight (cfg : RatingConfig α n) (g : Game α n) : α :=
  if g.season = cfg.seasonToRank ∧ ¬(cfg.usePreseason = true ∧ g.isPreseason = true) then 1
  else if g.season = cfg.seasonToRank ∧ cfg.usePreseason = true ∧ g.isPreseason = true then
    cfg.preseasonWeight
  else if g.season < cfg.seasonToRank ∧ cfg.usePreseason = true ∧ g.isPreseason = true then
    cfg.priorPreseasonWeight
  else if g.season < cfg.seasonToRank then cfg.priorSeasonWeight
  else 0

/-- Spec-side §4.3 prediction formula for the home score:
`max(off[home] + (neutral ? 0 : home_adv/2) - def[away] + league_mean_score, 0)`. -/
def specPredHome (cfg : RatingConfig α n) (off defR : Fin n → α)
    (adv : α) (g : Game α n) : α :=
  max (off g.homeIdx + (if g.isNeutralSite then 0 else adv / 2)
        - defR g.awayIdx + cfg.scoreMean) 0

/-- Spec-side §4.3 prediction formula for the away score:
`max(off[away] - (neutral ? 0 : home_adv/2) - def[home] + league_mean_score, 0)`. -/
def specPredAway (cfg : RatingConfig α n) (off defR : Fin n → α)
    (adv : α) (g : Game α n) : α :=
  max (off g.awayIdx - (if g.isNeutralSite then 0 else adv / 2)
        - defR g.homeIdx + cfg.scoreMean) 0

/-- C1. In every iteration of a rating attempt the predicted home score,
predicted away score and predicted margin of a game, evaluated at the current
rating state (lines 99-101 of `rating_attempt`), equal the spec's §4.3
formulas: `pred_home = max(off[home] + (neutral?0:home_adv/2) - def[away] +
league_mean_score, 0)`, `pred_away = max(off[away] - (neutral?0:home_adv/2)
- def[home] + league_mean_score, 0)`, and `pred_margin = pred_home - pred_away`. -/
theorem prediction_formulas_match_spec (cfg : RatingConfig α n)
    (off defR : Fin n → α) (adv : α) (g : Game α n) :
    predictedOffScore cfg off defR adv g = specPredHome cfg off defR adv g
    ∧ predictedDefScore cfg off defR adv g = specPredAway cfg off defR adv g
    ∧ predictedMargin cfg off defR adv g
        = predictedOffScore cfg off defR adv g - predictedDefScore cfg off defR adv g := by
  refine ⟨?_, ?_, rfl⟩ <;>
    simp only [predictedOffScore, specPredHome, predictedDefScore, specPredAway] <;>
      cases g.isNeutralSite <;> simp

/-- The policy weight computed by the nested branching of lines 81-94 agrees
with the spec's flat four-case table. -/
theorem policyWeight_eq_spec (cfg : RatingConfig α n) (g : Game α n) :
    policyWeight cfg g = specPolicyWeight cfg g := by
  unfold policyWeight specPolicyWeight
  by_cases hs : g.season = cfg.seasonToRank <;>
    by_cases hlt : g.season < cfg.seasonToRank <;>
      cases hu : cfg.usePreseason <;> cases hp : g.isPreseason <;>
        simp [hs, hlt, hu, hp]

/-- Spec-side §4.2 final weight: policy weight divided by `ln(1/centrality)`
(the logarithm is a parameter so the definition stays executable; the claim
instantiates it with `Real.log`), with the centrality looked up at the
unordered (home, away) all-team-index pair. -/
def specFinalWeight (lg : α → α) (cfg : RatingConfig α n) (g : Game α n) : α :=
  specPolicyWeight cfg g
    / lg (1 / cfg.centrality
        (min g.homeAllIdx g.awayAllIdx, max g.homeAllIdx g.awayAllIdx, 0))

/-- C3. With `np.log` read as the natural logarithm, the final weight computed
at line 96 equals the spec's §4.2 formula (policy weight over `ln(1/centrality)`
of the unordered team pair), and under the precondition that the centrality
lies strictly between 0 and 1 the denominator is strictly positive (so the
weight is a well-defined finite value). -/
theorem final_weight_matches_spec (cfg : RatingConfig ℝ n) (g : Game ℝ n)
    (hlog : cfg.log = Real.log)
    (h0 : 0 < cfg.centrality (centralityKey g))
    (h1 : cfg.centrality (centralityKey g) < 1) :
    gtWeight cfg g = specFinalWeight Real.log cfg g
    ∧ 0 < Real.log (1 / cfg.centrality (centralityKey g)) := by
  constructor
  · unfold gtWeight specFinalWeight centralityKey
    rw [hlog, policyWeight_eq_spec]
  · exact Real.log_pos (one_lt_one_div h0 h1)

theorem final_weight_matches_spec_witness :
    (0 : ℝ) < (1 : ℝ) / 2
    ∧ (1 : ℝ) / 2 < 1
    ∧ (gtWeight
          (RatingConfig.mk 2024 1 1 1 false (fun _ => 1 / 2) 0 1 200 1000 20
            Real.log (fun _ => 0) : RatingConfig ℝ 1)
          (Game.mk 0 0 0 0 20 10 2024 false false)
        = specFinalWeight Real.log
            (RatingConfig.mk 2024 1 1 1 false (fun _ => 1 / 2) 0 1 200 1000 20
              Real.log (fun _ => 0) : RatingConfig ℝ 1)
            (Game.mk 0 0 0 0 20 10 2024 false false)) :=
  ⟨one_half_pos, one_half_lt_one,
    (final_weight_matches_spec
      (RatingConfig.mk 2024 1 1 1 false (fun _ => 1 / 2) 0 1 200 1000 20
        Real.log (fun _ => 0))
      (Game.mk 0 0 0 0 20 10 2024 false false)
      rfl one_half_pos one_half_lt_one).1⟩

/-- C10. The centrality lookup (line 96) keys on
`(min all_idx, max all_idx, 0)`: the key is invariant under exchanging the two
teams, its parallel-edge component is always 0, and consequently two games
between the same unordered pair of teams that carry equal policy weights are
assigned exactly equal final weights. -/
theorem same_pair_same_weight (cfg : RatingConfig α n) (g1 g2 : Game α n)
    (hmin : min g1.homeAllIdx g1.awayAllIdx = min g2.homeAllIdx g2.awayAllIdx)
    (hmax : max g1.homeAllIdx g1.awayAllIdx = max g2.homeAllIdx g2.awayAllIdx)
    (hpol : policyWeight cfg g1 = policyWeight cfg g2) :
    centralityKey g1 = centralityKey g2
    ∧ (centralityKey (α := α) g1).2.2 = 0
    ∧ gtWeight cfg g1 = gtWeight cfg g2 := by
  have hkey : centralityKey (α := α) g1 = centralityKey g2 := by
    unfold centralityKey
    rw [hmin, hmax]
  exact ⟨hkey, rfl, by unfold gtWeight; rw [hkey, hpol]⟩

/-- The standard-normal CDF evaluated as `stats.norm.cdf(x, loc, scale)`. -/
def normCdf (cfg : RatingConfig α n) (x loc scale : α) : α :=
  cfg.Phi ((x - loc) / scale)

/-- Total error of one iteration (lines 129-131): the weighted sum of absolute
CDF differences between actual and predicted margins, plus the same sum for
the home and away scores (the code concatenates the home and away lists and
doubles the weight list, which is the sum of the two per-game terms below). -/
def absTotalError (cfg : RatingConfig α n) (games : List (Game α n))
    (off defR : Fin n → α) (adv : α) : α :=
  (games.map (fun g => gtWeight cfg g *
      |normCdf cfg (actualMargin g) 0 cfg.marginStdev
        - normCdf cfg (predictedMargin cfg off defR adv g) 0 cfg.marginStdev|)).sum
  + ((games.map (fun g => gtWeight cfg g *
        |normCdf cfg g.homeScore cfg.scoreMean cfg.marginStdev
          - normCdf cfg (predictedOffScore cfg off defR adv g) cfg.scoreMean
              cfg.marginStdev|)).sum
      + (games.map (fun g => gtWeight cfg g *
          |normCdf cfg g.awayScore cfg.scoreMean cfg.marginStdev
            - normCdf cfg (predictedDefScore cfg off defR adv g) cfg.scoreMean
                cfg.marginStdev|)).sum)

/-- Accumulated weighted offensive score residual of a team
(`total_team_off_margin_error_weight`, lines 121 and 123). -/
def offMarginErrorWeight (cfg : RatingConfig α n) (games : List (Game α n))
    (off defR : Fin n → α) (adv : α) (i : Fin n) : α :=
  (games.map (fun g =>
      (if g.homeIdx = i then
        (g.homeScore - predictedOffScore cfg off defR adv g) * gtWeight cfg g else 0)
    + (if g.awayIdx = i then
        (g.awayScore - predictedDefScore cfg off defR adv g) * gtWeight cfg g else 0))).sum

/-- Accumulated weighted defensive score residual of a team
(`total_team_def_margin_error_weight`, lines 122 and 124). -/
def defMarginErrorWeight (cfg : RatingConfig α n) (games : List (Game α n))
    (off defR : Fin n → α) (adv : α) (i : Fin n) : α :=
  (games.map (fun g =>
      (if g.homeIdx = i then
        -((g.awayScore - predictedDefScore cfg off defR adv g) * gtWeight cfg g) else 0)
    + (if g.awayIdx = i then
        -((g.homeScore - predictedOffScore cfg off defR adv g) * gtWeight cfg g) else 0))).sum

/-- Total accumulated game weight of a team (`total_team_weight`, lines
106-107; computed on the first iteration and reused, its value does not
depend on the iteration since the weights are constant). -/
def totalTeamWeight (cfg : RatingConfig α n) (games : List (Game α n))
    (i : Fin n) : α :=
  (games.map (fun g =>
      (if g.homeIdx = i then gtWeight cfg g else 0)
    + (if g.awayIdx = i then gtWeight cfg g else 0))).sum

/-- Total weight of non-neutral-site games (`total_notneutral_weight`,
lines 108-109). -/
def totalNotNeutralWeight (cfg : RatingConfig α n) (games : List (Game α n)) : α :=
  (games.map (fun g => if g.isNeutralSite then 0 else gtWeight cfg g)).sum

/-- Weighted margin residual over non-neutral-site games
(`total_home_margin_error_weight`, lines 126-127). -/
def totalHomeMarginErrorWeight (cfg : RatingConfig α n) (games : List (Game α n))
    (off defR : Fin n → α) (adv : α) : α :=
  (games.map (fun g => if g.isNeutralSite then 0 else
      (actualMargin g - predictedMargin cfg off defR adv g) * gtWeight cfg g)).sum

/-- Mean of a rating array (`np.mean`). -/
def fieldMean (f : Fin n → α) : α :=
  (∑ i, f i) / (n : α)

/-- The mutable state of the `rating_attempt` search loop. `bestErr` mirrors
`best_abs_total_error`; in the source it is initialised to `None` and only
compared after the first iteration has stored a real value, so it is kept
here as a plain field that is never read while `firstIteration` is true. -/
structure AttemptState (α : Type) (n : ℕ) where
  curOff : Fin n → α
  curDef : Fin n → α
  curRating : Fin n → α
  curHomeAdv : α
  bestOff : Fin n → α
  bestDef : Fin n → α
  bestRating : Fin n → α
  bestHomeAdv : α
  bestErr : α
  firstIteration : Bool
  sinceUpdate : ℕ

/-- The list `[best_team_off_ratings, best_team_def_ratings,
best_team_ratings, best_home_advantage]` returned at line 176. -/
structure AttemptResult (α : Type) (n : ℕ) where
  bestOff : Fin n → α
  bestDef : Fin n → α
  bestRating : Fin n → α
  bestHomeAdvantage : α

/-- One iteration's standardized normal draws: a draw of
`rng.normal(loc, scale)` is modelled as `loc + scale * z`. -/
structure IterNoise (α : Type) (n : ℕ) where
  zOff : Fin n → α
  zDef : Fin n → α
  zAdv : α

/-- Initial state (lines 32-47): all ratings zero, home advantage zero. -/
def initialState (α : Type) [LinearOrderedField α] (n : ℕ) : AttemptState α n where
  curOff := fun _ => 0
  curDef := fun _ => 0
  curRating := fun _ => 0
  curHomeAdv := 0
  bestOff := fun _ => 0
  bestDef := fun _ => 0
  bestRating := fun _ => 0
  bestHomeAdv := 0
  bestErr := 0
  firstIteration := true
  sinceUpdate := 0

/-- The improvement test of lines 133-139: the first iteration always counts
as an improvement, afterwards a strictly lower total error does. -/
def improves (cfg : RatingConfig α n) (games : List (Game α n))
    (s : AttemptState α n) : Prop :=
  s.firstIteration = true
  ∨ absTotalError cfg games s.curOff s.curDef s.curHomeAdv < s.bestErr

instance (cfg : RatingConfig α n) (games : List (Game α n))
    (s : AttemptState α n) : Decidable (improves cfg games s) := by
  unfold improves
  infer_instance

/-- Best-tracking and reset bookkeeping of an iteration (lines 132-156):
on improvement the current state is saved as the best one and the counter is
reset; otherwise the counter is incremented and, when it is a multiple of the
reset interval, the current state is overwritten with the best state. -/
def bookkeep (cfg : RatingConfig α n) (games : List (Game α n))
    (s : AttemptState α n) : AttemptState α n :=
  if improves cfg games s then
    { s with bestOff := s.curOff, bestDef := s.curDef, bestRating := s.curRating,
             bestHomeAdv := s.curHomeAdv,
             bestErr := absTotalError cfg games s.curOff s.curDef s.curHomeAdv,
             sinceUpdate := 0 }
  else if (s.sinceUpdate + 1) % cfg.iterationsBeforeReset = 0 then
    { s with sinceUpdate := s.sinceUpdate + 1,
             curOff := s.bestOff, curDef := s.bestDef,
             curRating := s.bestRating, curHomeAdv := s.bestHomeAdv }
  else
    { s with sinceUpdate := s.sinceUpdate + 1 }

/-- The rating update of lines 158-169, applied to the post-bookkeeping state
`s1` but driven by the residual accumulators of the iteration's entry state
`sRes` (the accumulators are local variables filled by the game loop before
any reset happens). A zero total weight for some team, or a zero total
non-neutral weight, makes the Python division raise `ZeroDivisionError`,
modelled as `none`. -/
def updateRatings (cfg : RatingConfig α n) (games : List (Game α n))
    (sRes s1 : AttemptState α n) (z : IterNoise α n) :
    Option (AttemptState α n) :=
  if (∀ i, totalTeamWeight cfg games i ≠ 0)
      ∧ totalNotNeutralWeight cfg games ≠ 0 then
    let off1 : Fin n → α := fun i => s1.curOff i
      + ((offMarginErrorWeight cfg games sRes.curOff sRes.curDef sRes.curHomeAdv i
            / totalTeamWeight cfg games i) / cfg.ratingAdjustmentScale
          + 1 / cfg.ratingAdjustmentScale * z.zOff i)
    let def1 : Fin n → α := fun i => s1.curDef i
      + ((defMarginErrorWeight cfg games sRes.curOff sRes.curDef sRes.curHomeAdv i
            / totalTeamWeight cfg games i) / cfg.ratingAdjustmentScale
          + 1 / cfg.ratingAdjustmentScale * z.zDef i)
    let adv1 : α := s1.curHomeAdv
      + ((totalHomeMarginErrorWeight cfg games sRes.curOff sRes.curDef sRes.curHomeAdv
            / totalNotNeutralWeight cfg games) / cfg.ratingAdjustmentScale
          + 1 / cfg.ratingAdjustmentScale * z.zAdv)
    let off2 : Fin n → α := fun i => off1 i - fieldMean off1
    let def2 : Fin n → α := fun i => def1 i - fieldMean def1
    some { s1 with curOff := off2, curDef := def2,
                   curRating := fun i => off2 i + def2 i, curHomeAdv := adv1 }
  else none

/-- Status of the search loop after some number of iterations. -/
inductive RunStatus (α : Type) (n : ℕ) where
  | running (s : AttemptState α n)
  | finished (r : AttemptResult α n)
  | crashed

/-- One full pass of the `while not terminate_search` body (lines 50-174). -/
def attemptStep (cfg : RatingConfig α n) (games : List (Game α n))
    (s : AttemptState α n) (z : IterNoise α n) : RunStatus α n :=
  if (bookkeep cfg games s).sinceUpdate < cfg.iterationsBeforeStop then
    match updateRatings cfg games s (bookkeep cfg games s) z with
    | some s2 => .running { s2 with firstIteration := false }
    | none => .crashed
  else
    .finished ⟨(bookkeep cfg games s).bestOff, (bookkeep cfg games s).bestDef,
      (bookkeep cfg games s).bestRating, (bookkeep cfg games s).bestHomeAdv⟩

/-- The search loop after `k` iterations, fed by the noise stream. -/
def runAttempt (cfg : RatingConfig α n) (games : List (Game α n))
    (noise : ℕ → IterNoise α n) : ℕ → RunStatus α n
  | 0 => .running (initialState α n)
  | k + 1 =>
    match runAttempt cfg games noise k with
    | .running s => attemptStep cfg games s (noise k)
    | .finished r => .finished r
    | .crashed => .crashed

theorem runAttempt_succ_of_running (cfg : RatingConfig α n)
    (games : List (Game α n)) (noise : ℕ → IterNoise α n) (k : ℕ)
    (s : AttemptState α n) (hrun : runAttempt cfg games noise k = .running s) :
    runAttempt cfg games noise (k + 1) = attemptStep cfg games s (noise k) := by
  rw [runAttempt, hrun]

theorem runAttempt_succ_of_finished (cfg : RatingConfig α n)
    (games : List (Game α n)) (noise : ℕ → IterNoise α n) (k : ℕ)
    (r : AttemptResult α n) (hrun : runAttempt cfg games noise k = .finished r) :
    runAttempt cfg games noise (k + 1) = .finished r := by
  rw [runAttempt, hrun]

theorem runAttempt_succ_of_crashed (cfg : RatingConfig α n)
    (games : List (Game α n)) (noise : ℕ → IterNoise α n) (k : ℕ)
    (hrun : runAttempt cfg games noise k = .crashed) :
    runAttempt cfg games noise (k + 1) = .crashed := by
  rw [runAttempt, hrun]

/-- Subtracting the mean recenters an array to mean zero (exactly, in ideal
arithmetic). -/
theorem fieldMean_center (hn : 0 < n) (f : Fin n → α) :
    fieldMean (fun i => f i - fieldMean f) = 0 := by
  have hn' : (n : α) ≠ 0 := Nat.cast_ne_zero.mpr hn.ne'
  unfold fieldMean
  rw [Finset.sum_sub_distrib, Finset.sum_const, Finset.card_univ, Fintype.card_fin,
    nsmul_eq_mul]
  field_simp

/-- C2. Zero-centering invariant: as long as the attempt is still running,
both the current and the saved best offense/defense arrays have mean exactly
zero (in exact arithmetic, hence within any tolerance ε > 0), and when the
attempt finishes, the returned best state is zero-centered as well. -/
theorem zero_centering_invariant (cfg : RatingConfig α n)
    (games : List (Game α n)) (noise : ℕ → IterNoise α n)
    (hn : 0 < n) (k : ℕ) :
    (∀ s, runAttempt cfg games noise k = .running s →
      fieldMean s.curOff = 0 ∧ fieldMean s.curDef = 0
      ∧ fieldMean s.bestOff = 0 ∧ fieldMean s.bestDef = 0)
    ∧ (∀ r, runAttempt cfg games noise k = .finished r →
      fieldMean r.bestOff = 0 ∧ fieldMean r.bestDef = 0) := by
  have hzero : fieldMean (α := α) (fun _ : Fin n => (0 : α)) = 0 := by
    unfold fieldMean
    simp
  induction k with
  | zero =>
    constructor
    · intro s hs
      cases hs
      exact ⟨hzero, hzero, hzero, hzero⟩
    · intro r hr
      cases hr
  | succ k ih =>
    constructor
    · intro s hs
      cases hrun : runAttempt cfg games noise k with
      | running sk =>
        rw [runAttempt_succ_of_running cfg games noise k sk hrun] at hs
        obtain ⟨hc1, hc2, hb1, hb2⟩ := ih.1 sk hrun
        have hbk : fieldMean (bookkeep cfg games sk).curOff = 0
            ∧ fieldMean (bookkeep cfg games sk).curDef = 0
            ∧ fieldMean (bookkeep cfg games sk).bestOff = 0
            ∧ fieldMean (bookkeep cfg games sk).bestDef = 0 := by
          unfold bookkeep
          split_ifs <;> exact ⟨by assumption, by assumption, by assumption, by assumption⟩
        unfold attemptStep at hs
        split_ifs at hs with hlt
        cases hup : updateRatings cfg games sk (bookkeep cfg games sk) (noise k) with
        | none => rw [hup] at hs; cases hs
        | some s2 =>
          rw [hup] at hs
          cases hs
          unfold updateRatings at hup
          split_ifs at hup
          cases hup
          exact ⟨fieldMean_center hn _, fieldMean_center hn _, hbk.2.2.1, hbk.2.2.2⟩
      | finished r =>
        rw [runAttempt_succ_of_finished cfg games noise k r hrun] at hs
        cases hs
      | crashed =>
        rw [runAttempt_succ_of_crashed cfg games noise k hrun] at hs
        cases hs
    · intro r hr
      cases hrun : runAttempt cfg games noise k with
      | running sk =>
        rw [runAttempt_succ_of_running cfg games noise k sk hrun] at hr
        obtain ⟨hc1, hc2, hb1, hb2⟩ := ih.1 sk hrun
        have hbk : fieldMean (bookkeep cfg games sk).bestOff = 0
            ∧ fieldMean (bookkeep cfg games sk).bestDef = 0 := by
          unfold bookkeep
          split_ifs <;> exact ⟨by assumption, by assumption⟩
        unfold attemptStep at hr
        split_ifs at hr with hlt
        · cases hup : updateRatings cfg games sk (bookkeep cfg games sk) (noise k) with
          | none => rw [hup] at hr; cases hr
          | some s2 => rw [hup] at hr; cases hr
        · cases hr
          exact hbk
      | finished r' =>
        rw [runAttempt_succ_of_finished cfg games noise k r' hrun] at hr
        cases hr
        exact ih.2 _ hrun
      | crashed =>
        rw [runAttempt_succ_of_crashed cfg games noise k hrun] at hr
        cases hr

/-- Concrete config over `ℚ` for executable witnesses; `np.log` is modelled at
the single centrality value used as the constant function 1 and the normal CDF
as the constant 0 (both are opaque external inputs to `rating_attempt`). -/
def cfgQ : RatingConfig ℚ 2 where
  seasonToRank := 2024
  preseasonWeight := 1
  priorSeasonWeight := 1
  priorPreseasonWeight := 1
  usePreseason := false
  centrality := fun _ => 1 / 2
  scoreMean := 1
  marginStdev := 1
  iterationsBeforeReset := 1
  iterationsBeforeStop := 3
  ratingAdjustmentScale := 1
  log := fun _ => 1
  Phi := fun _ => 0

/-- Two concrete games between the same unordered pair (home/away exchanged). -/
def gPairA : Game ℚ 2 :=
  ⟨0, 1, 3, 7, 20, 10, 2024, false, false⟩

/-- The rematch of `gPairA` with home and away exchanged. -/
def gPairB : Game ℚ 2 :=
  ⟨1, 0, 7, 3, 14, 17, 2024, true, false⟩

theorem same_pair_same_weight_witness :
    (min gPairA.homeAllIdx gPairA.awayAllIdx = min gPairB.homeAllIdx gPairB.awayAllIdx)
    ∧ (max gPairA.homeAllIdx gPairA.awayAllIdx = max gPairB.homeAllIdx gPairB.awayAllIdx)
    ∧ policyWeight cfgQ gPairA = policyWeight cfgQ gPairB
    ∧ gtWeight cfgQ gPairA = gtWeight cfgQ gPairB :=
  ⟨by decide, by decide, by decide,
    (same_pair_same_weight cfgQ gPairA gPairB (by decide) (by decide) (by decide)).2.2⟩

/-- A single non-neutral target-season game between the two teams of `cfgQ`. -/
def gQ : Game ℚ 2 :=
  ⟨0, 1, 0, 1, 2, 0, 2024, false, false⟩

/-- Game list for the `cfgQ` instance. -/
def gamesQ : List (Game ℚ 2) := [gQ]

/-- Zero noise stream: every standardized draw is 0. -/
def noiseQ : ℕ → IterNoise ℚ 2 := fun _ => ⟨fun _ => 0, fun _ => 0, 0⟩

/-- Current offense rating of one team in a running status, if any. -/
def statusCurOffAt (i : Fin n) : RunStatus α n → Option α
  | .running s => some (s.curOff i)
  | _ => none

/-- Best offense rating of one team in a running status, if any. -/
def statusBestOffAt (i : Fin n) : RunStatus α n → Option α
  | .running s => some (s.bestOff i)
  | _ => none

/-- Iterations-since-improvement counter of a running status, if any. -/
def statusSinceUpdate : RunStatus α n → Option ℕ
  | .running s => some s.sinceUpdate
  | _ => none

/-- Whether the attempt has crashed (a raised `ZeroDivisionError`). -/
def isCrashed : RunStatus α n → Bool
  | .crashed => true
  | _ => false

theorem zero_centering_invariant_witness :
    0 < 2
    ∧ fieldMean (initialState ℚ 2).curOff = 0
    ∧ fieldMean (initialState ℚ 2).curDef = 0 :=
  ⟨by decide,
    ((zero_centering_invariant cfgQ gamesQ noiseQ (by decide) 0).1
      (initialState ℚ 2) rfl).1,
    ((zero_centering_invariant cfgQ gamesQ noiseQ (by decide) 0).1
      (initialState ℚ 2) rfl).2.1⟩

/-- Config for the C7 evaluation: three teams, `prior_season_weight = 0`. -/
def cfgC7 : RatingConfig ℚ 3 where
  seasonToRank := 2024
  preseasonWeight := 1
  priorSeasonWeight := 0
  priorPreseasonWeight := 1
  usePreseason := true
  centrality := fun _ => 1 / 2
  scoreMean := 1
  marginStdev := 1
  iterationsBeforeReset := 200
  iterationsBeforeStop := 1000
  ratingAdjustmentScale := 1
  log := fun _ => 1
  Phi := fun _ => 0

/-- A prior-season game (policy weight 0 under `cfgC7`): team 1 plays only
this game, so its total accumulated weight is 0. -/
def gPrior : Game ℚ 3 :=
  ⟨0, 1, 0, 1, 3, 3, 2023, false, false⟩

/-- A current-season game giving teams 0 and 2 positive total weight. -/
def gCurrent : Game ℚ 3 :=
  ⟨0, 2, 0, 2, 2, 1, 2024, false, false⟩

/-- Game list for the C7 evaluation. -/
def gamesC7 : List (Game ℚ 3) := [gPrior, gCurrent]

/-- Zero noise stream for the C7 evaluation. -/
def noiseC7 : ℕ → IterNoise ℚ 3 := fun _ => ⟨fun _ => 0, fun _ => 0, 0⟩

/-- C7 (code evaluation). A team of the primary network whose games all have
policy weight 0 has total accumulated weight exactly 0, and the per-iteration
update of lines 160-162 divides by that zero total weight anyway (the Python
division raises `ZeroDivisionError`, modelled as the crashed status), instead
of excluding the team from the update step as the spec requires. -/
theorem zero_weight_team_code_evaluation :
    policyWeight cfgC7 gPrior = 0
    ∧ totalTeamWeight cfgC7 gamesC7 1 = 0
    ∧ runAttempt cfgC7 gamesC7 noiseC7 1 = .crashed := by
  have hpol : policyWeight cfgC7 gPrior = 0 := by
    norm_num [policyWeight, cfgC7, gPrior]
  have htw : totalTeamWeight cfgC7 gamesC7 1 = 0 := by
    norm_num [totalTeamWeight, gamesC7, gPrior, gCurrent, gtWeight, policyWeight,
      centralityKey, cfgC7]
    decide
  refine ⟨hpol, htw, ?_⟩
  have hrun : runAttempt cfgC7 gamesC7 noiseC7 1
      = attemptStep cfgC7 gamesC7 (initialState ℚ 3) (noiseC7 0) :=
    runAttempt_succ_of_running cfgC7 gamesC7 noiseC7 0 (initialState ℚ 3) rfl
  rw [hrun]
  have himp : improves cfgC7 gamesC7 (initialState ℚ 3) := Or.inl rfl
  have hguard : ¬ ((∀ i, totalTeamWeight cfgC7 gamesC7 i ≠ 0)
      ∧ totalNotNeutralWeight cfgC7 gamesC7 ≠ 0) :=
    fun h => h.1 1 htw
  have hsu : (bookkeep cfgC7 gamesC7 (initialState ℚ 3)).sinceUpdate = 0 := by
    rw [bookkeep, if_pos himp]
  rw [attemptStep, if_pos (by rw [hsu]; norm_num [cfgC7] :
    (bookkeep cfgC7 gamesC7 (initialState ℚ 3)).sinceUpdate
      < cfgC7.iterationsBeforeStop)]
  rw [updateRatings, if_neg hguard]

set_option maxHeartbeats 1600000 in
/-- C8 (counterexample). A two-iteration run in which iteration 1 makes no
improvement, its counter value 1 is a multiple of the reset interval 1 (so the
anti-drift reset of lines 152-156 fires), yet the state at the start of the
next iteration does not equal the best state: the same iteration's stochastic
update (lines 158-169) perturbs the freshly reset ratings before the next
iteration begins. -/
theorem reset_claim_counterexample :
    statusSinceUpdate (runAttempt cfgQ gamesQ noiseQ 2) = some 1
    ∧ (1 % cfgQ.iterationsBeforeReset = 0)
    ∧ statusCurOffAt 0 (runAttempt cfgQ gamesQ noiseQ 2)
        ≠ statusBestOffAt 0 (runAttempt cfgQ gamesQ noiseQ 2) := by
  have hcdf : ∀ a b c : ℚ, normCdf cfgQ a b c = 0 := fun _ _ _ => rfl
  have herr : ∀ (gs : List (Game ℚ 2)) (off defR : Fin 2 → ℚ) (adv : ℚ),
      absTotalError cfgQ gs off defR adv = 0 := by
    intro gs off defR adv
    simp [absTotalError, hcdf]
  have hlogAll : ∀ x : ℚ, cfgQ.log x = 1 := fun _ => rfl
  have hseason : cfgQ.seasonToRank = 2024 := rfl
  have husep : cfgQ.usePreseason = false := rfl
  have hmean : cfgQ.scoreMean = 1 := rfl
  have hscale : cfgQ.ratingAdjustmentScale = 1 := rfl
  have hreset : cfgQ.iterationsBeforeReset = 1 := rfl
  have hstop : cfgQ.iterationsBeforeStop = 3 := rfl
  norm_num [runAttempt, attemptStep, bookkeep, improves, updateRatings,
    initialState, statusSinceUpdate, statusCurOffAt, statusBestOffAt,
    herr, hlogAll, hseason, husep, hmean, hscale, hreset, hstop,
    gtWeight, policyWeight, centralityKey,
    offMarginErrorWeight, defMarginErrorWeight, totalTeamWeight,
    totalNotNeutralWeight, totalHomeMarginErrorWeight, fieldMean,
    predictedOffScore, predictedDefScore, predictedMargin, actualMargin,
    Fin.sum_univ_two, Fin.forall_fin_two, gamesQ, gQ, noiseQ]

/-- C8 (amended). When an iteration does not improve on the best error and the
incremented counter is a multiple of the reset interval, the bookkeeping of
lines 148-156 overwrites the current state (offense, defense, overall, home
advantage) with the best state exactly, element-wise, before the same
iteration's stochastic update runs; the best state itself is unchanged. -/
theorem reset_overwrites_current_with_best (cfg : RatingConfig α n)
    (games : List (Game α n)) (s : AttemptState α n)
    (hni : ¬ improves cfg games s)
    (hres : (s.sinceUpdate + 1) % cfg.iterationsBeforeReset = 0) :
    (bookkeep cfg games s).curOff = s.bestOff
    ∧ (bookkeep cfg games s).curDef = s.bestDef
    ∧ (bookkeep cfg games s).curRating = s.bestRating
    ∧ (bookkeep cfg games s).curHomeAdv = s.bestHomeAdv
    ∧ (bookkeep cfg games s).bestOff = s.bestOff
    ∧ (bookkeep cfg games s).bestDef = s.bestDef := by
  unfold bookkeep
  rw [if_neg hni, if_pos hres]
  exact ⟨rfl, rfl, rfl, rfl, rfl, rfl⟩

/-- A non-first-iteration state at which the error does not improve. -/
def sReset : AttemptState ℚ 2 :=
  { initialState ℚ 2 with firstIteration := false }

theorem reset_overwrites_current_with_best_witness :
    ¬ improves cfgQ gamesQ sReset
    ∧ (sReset.sinceUpdate + 1) % cfgQ.iterationsBeforeReset = 0
    ∧ (bookkeep cfgQ gamesQ sReset).curOff = sReset.bestOff := by
  have hni : ¬ improves cfgQ gamesQ sReset := by
    norm_num [improves, sReset, initialState, absTotalError, normCdf, cfgQ,
      gamesQ, gQ]
  have hres : (sReset.sinceUpdate + 1) % cfgQ.iterationsBeforeReset = 0 := by
    norm_num [sReset, initialState, cfgQ]
  exact ⟨hni, hres,
    (reset_overwrites_current_with_best cfgQ gamesQ sReset hni hres).1⟩

/-- Eligibility test of the Error Model Calibrator loop (`main`, lines
483-491). The Python variable `cur_game_season` is not assigned anywhere
inside this loop: it retains whatever value it had after the affiliation
loops of lines 382-407 (with unplayed games present, the season of the last
unplayed game, which the filter of line 238 constrains to be at least the
target season). It is modelled as the extra parameter `staleSeason`; the
game's own season `g.season` is never consulted by this code. -/
def calibIncludeGame (cfg : RatingConfig α n) (staleSeason : ℤ)
    (g : Game α n) : Bool :=
  let inc1 := if cfg.usePreseason = true ∧ g.isPreseason = true
      ∧ cfg.preseasonWeight = 0 then false else true
  let inc2 := if cfg.usePreseason = true ∧ staleSeason < cfg.seasonToRank
      ∧ cfg.priorPreseasonWeight = 0 ∧ g.isPreseason = true then false else inc1
  if staleSeason < cfg.seasonToRank ∧ cfg.priorSeasonWeight = 0 then false
  else inc2

/-- Predicted margin used by the calibrator and the tie-bound search
(lines 500 and 555): overall rating difference plus the full home advantage
on non-neutral sites, with no zero floor. -/
def calibPredictedMargin (rating : Fin n → α) (adv : α) (g : Game α n) : α :=
  rating g.homeIdx + (if g.isNeutralSite then 0 else 1) * adv - rating g.awayIdx

/-- Predicted home score recomputed by the calibrator (line 503): the §4.3
formula without the zero floor. -/
def calibPredictedHomeScore (cfg : RatingConfig α n) (off defR : Fin n → α)
    (adv : α) (g : Game α n) : α :=
  off g.homeIdx + (if g.isNeutralSite then 0 else 1) * adv / 2
    - defR g.awayIdx + cfg.scoreMean

/-- Predicted away score recomputed by the calibrator (line 504): note the
defense term of the home team is ADDED (`+ median_team_def_ratings[...]`),
where line 100 of the optimizer subtracts it, and there is no zero floor. -/
def calibPredictedAwayScore (cfg : RatingConfig α n) (off defR : Fin n → α)
    (adv : α) (g : Game α n) : α :=
  off g.awayIdx - (if g.isNeutralSite then 0 else 1) * adv / 2
    + defR g.homeIdx + cfg.scoreMean

/-- Config for the calibrator evaluations: `prior_season_weight = 0`,
preseason tracking on. -/
def cfgC4 : RatingConfig ℚ 2 where
  seasonToRank := 2024
  preseasonWeight := 1
  priorSeasonWeight := 0
  priorPreseasonWeight := 1
  usePreseason := true
  centrality := fun _ => 1 / 2
  scoreMean := 1
  marginStdev := 1
  iterationsBeforeReset := 200
  iterationsBeforeStop := 1000
  ratingAdjustmentScale := 1
  log := fun _ => 1
  Phi := fun _ => 0

/-- A completed prior-season regular game: its policy weight is 0 under
`cfgC4`, so C4 requires the calibrator to exclude it. -/
def gC4 : Game ℚ 2 :=
  ⟨0, 1, 0, 1, 21, 14, 2023, false, false⟩

/-- C4 (code evaluation). With `prior_season_weight = 0`, a completed
prior-season game has policy weight 0, yet the calibrator's eligibility code
keeps `include_game = True` for it whenever the leftover `cur_game_season`
value (here 2024, the season of the last unplayed game) is not below the
target season: the prior-season checks of lines 488-491 test that stale
variable instead of the game's own season, so the game enters all three
residual samples. -/
theorem calibration_stale_season_code_evaluation :
    policyWeight cfgC4 gC4 = 0
    ∧ gC4.season < cfgC4.seasonToRank
    ∧ calibIncludeGame cfgC4 2024 gC4 = true := by
  refine ⟨?_, ?_, ?_⟩
  · norm_num [policyWeight, cfgC4, gC4]
  · norm_num [cfgC4, gC4]
  · norm_num [calibIncludeGame, cfgC4, gC4]

/-- A neutral-site target-season game for the C6 evaluation. -/
def gC6 : Game ℚ 2 :=
  ⟨0, 1, 0, 1, 10, 7, 2024, true, false⟩

/-- C6 (code evaluation). At median ratings `off = 0`, `def = ![5, 0]`
(overall `![5, 0]`), home advantage 0, league mean 1, a neutral-site game:
the calibrator's away score is `off[away] - 0 + def[home] + mean = 6`,
while the §4.3 optimizer formula gives `max(off[away] - 0 - def[home] +
mean, 0) = 0`; with `off = ![-20, 0]` the calibrator's home score is `-19`
while the optimizer formula floors it at 0; and the calibrator's own
predicted margin (line 500) disagrees with its predicted home minus away
score, which the optimizer formulas satisfy by construction. -/
theorem calibrator_prediction_code_evaluation :
    calibPredictedAwayScore cfgC4 (fun _ => 0) ![5, 0] 0 gC6 = 6
    ∧ predictedDefScore cfgC4 (fun _ => 0) ![5, 0] 0 gC6 = 0
    ∧ calibPredictedAwayScore cfgC4 (fun _ => 0) ![5, 0] 0 gC6
        ≠ predictedDefScore cfgC4 (fun _ => 0) ![5, 0] 0 gC6
    ∧ calibPredictedHomeScore cfgC4 ![-20, 0] (fun _ => 0) 0 gC6 = -19
    ∧ predictedOffScore cfgC4 ![-20, 0] (fun _ => 0) 0 gC6 = 0
    ∧ calibPredictedHomeScore cfgC4 ![-20, 0] (fun _ => 0) 0 gC6
        ≠ predictedOffScore cfgC4 ![-20, 0] (fun _ => 0) 0 gC6
    ∧ calibPredictedMargin ![5, 0] 0 gC6 = 5
    ∧ calibPredictedHomeScore cfgC4 (fun _ => 0) ![5, 0] 0 gC6
        - calibPredictedAwayScore cfgC4 (fun _ => 0) ![5, 0] 0 gC6 = -5 := by
  norm_num [calibPredictedAwayScore, calibPredictedHomeScore,
    calibPredictedMargin, predictedDefScore, predictedOffScore, cfgC4, gC6]

/-- Eligibility test of the tie-bound loop (`main`, lines 540-546): preseason
games with zero preseason weight are skipped; the prior-season check again
tests the stale `cur_game_season` (parameter `staleSeason`) rather than the
game's own season, and the prior-preseason check of the calibration loop is
absent here. -/
def tieEligible (cfg : RatingConfig α n) (staleSeason : ℤ)
    (g : Game α n) : Bool :=
  let inc1 := if cfg.usePreseason = true ∧ g.isPreseason = true
      ∧ cfg.preseasonWeight = 0 then false else true
  if staleSeason < cfg.seasonToRank ∧ cfg.priorSeasonWeight = 0 then false
  else inc1

/-- Aggregate predicted tie probability at bound `b` (lines 537-561): the
average over the eligible games of the mass that the fitted error
distribution centered at the game's predicted margin places inside
`[-b, b]`; `errCdf x m` models `stats.norm.cdf(x, loc = m, scale =
prediction_error_stdev)` (or the `stats.t.cdf` variant). -/
def tieProbAt (errCdf : α → α → α) (margins : List α) (b : α) : α :=
  ((margins.map (fun m => errCdf b m - errCdf (-b) m)).sum)
    / (margins.length : α)

/-- The bound search of lines 529-563: starting from bound 0, the candidate
bound is raised by `step` each pass until the aggregate tie probability first
reaches `p`; the candidate bounds examined are `(k0+1)*step, (k0+2)*step, …`
and `fuel` bounds the number of passes (the Python loop is unbounded).
Returns the index of the first crossing. -/
def tieSearchFrom (errCdf : α → α → α) (margins : List α) (p step : α) :
    ℕ → ℕ → Option ℕ
  | 0, _ => none
  | fuel + 1, k =>
    if p ≤ tieProbAt errCdf margins (((k + 1 : ℕ) : α) * step) then some (k + 1)
    else tieSearchFrom errCdf margins p step fuel (k + 1)

/-- The linear interpolation of line 564, evaluated at the crossing index
`k`: the previous pair is `((k-1)*step, Q((k-1)*step))` (for `k = 1` the code
uses the initialisation value 0, which equals `Q(0)`), the current pair is
`(k*step, Q(k*step))`, and the returned bound solves the aggregate
probability `= p` linearly between them. -/
def tieCdfBound (errCdf : α → α → α) (margins : List α) (p step : α)
    (k : ℕ) : α :=
  ((p - tieProbAt errCdf margins (((k - 1 : ℕ) : α) * step))
      / (tieProbAt errCdf margins ((k : ℕ) * step)
          - tieProbAt errCdf margins (((k - 1 : ℕ) : α) * step)))
    * step + ((k - 1 : ℕ) : α) * step

/-- The aggregate tie probability at bound 0 is 0, matching the loop's
initialisation `cur_cdf_tie_probability = 0`. -/
theorem tieProbAt_zero (errCdf : α → α → α) (margins : List α) :
    tieProbAt errCdf margins 0 = 0 := by
  simp [tieProbAt]

/-- The search stops at the first crossing: the returned index's bound meets
the target and every strictly earlier positive candidate falls short. -/
theorem tieSearchFrom_spec (errCdf : α → α → α) (margins : List α)
    (p step : α) :
    ∀ fuel k0 k, tieSearchFrom errCdf margins p step fuel k0 = some k →
      k0 < k
      ∧ p ≤ tieProbAt errCdf margins ((k : ℕ) * step)
      ∧ ∀ j : ℕ, k0 < j → j < k →
          tieProbAt errCdf margins ((j : ℕ) * step) < p := by
  intro fuel
  induction fuel with
  | zero => intro k0 k h; cases h
  | succ fuel ih =>
    intro k0 k h
    rw [tieSearchFrom] at h
    split_ifs at h with hc
    · cases h
      refine ⟨Nat.lt_succ_self k0, hc, fun j hj1 hj2 => ?_⟩
      exact absurd (Nat.lt_of_lt_of_le hj1 (Nat.lt_succ_iff.mp hj2))
        (lt_irrefl _)
    · obtain ⟨h1, h2, h3⟩ := ih (k0 + 1) k h
      refine ⟨Nat.lt_of_succ_lt h1, h2, fun j hj1 hj2 => ?_⟩
      rcases Nat.lt_or_ge (k0 + 1) j with hgt | hle
      · exact h3 j hgt hj2
      · have : j = k0 + 1 := le_antisymm hle (Nat.succ_le_of_lt hj1)
        rw [this]
        exact lt_of_not_le hc

/-- Monotone per-game CDFs make the aggregate tie probability monotone in
the bound. -/
theorem tieProbAt_mono (errCdf : α → α → α) (margins : List α)
    (hmono : ∀ m ∈ margins, Monotone (fun x => errCdf x m)) :
    Monotone (tieProbAt errCdf margins) := by
  intro a b hab
  unfold tieProbAt
  rcases eq_or_ne margins [] with hnil | hnil
  · subst hnil; simp
  · have hlen : (0 : α) < (margins.length : α) := by
      have : 0 < margins.length := List.length_pos.mpr hnil
      exact_mod_cast this
    rw [div_le_div_iff_of_pos_right hlen]
    apply List.sum_le_sum
    intro m hm
    have h1 : errCdf a m ≤ errCdf b m := hmono m hm hab
    have h2 : errCdf (-b) m ≤ errCdf (-a) m := hmono m hm (neg_le_neg hab)
    exact sub_le_sub h1 h2

/-- C5 (amended). If the tie-bound search finds its first crossing at index
`k` (bounds examined from 0 in steps of `step > 0`, target probability
`p > 0`), then the interpolated bound of line 564 is nonnegative and lies
between the previous and the current candidate bounds, the crossing is the
first one, and — when the fitted CDFs are monotone — the exactly recomputed
aggregate tie probability at the returned bound lies between the previous
and the current aggregate probabilities. The stronger claim that it always
lies within `step` of `p` is refuted separately. -/
theorem tie_bound_interpolation (errCdf : α → α → α) (margins : List α)
    (p step : α) (fuel k : ℕ)
    (hfound : tieSearchFrom errCdf margins p step fuel 0 = some k)
    (hstep : 0 < step) (hp : 0 < p)
    (hmono : ∀ m ∈ margins, Monotone (fun x => errCdf x m)) :
    0 ≤ tieCdfBound errCdf margins p step k
    ∧ ((k - 1 : ℕ) : α) * step ≤ tieCdfBound errCdf margins p step k
    ∧ tieCdfBound errCdf margins p step k ≤ ((k : ℕ) : α) * step
    ∧ p ≤ tieProbAt errCdf margins ((k : ℕ) * step)
    ∧ (∀ j : ℕ, 0 < j → j < k →
        tieProbAt errCdf margins ((j : ℕ) * step) < p)
    ∧ tieProbAt errCdf margins (((k - 1 : ℕ) : α) * step)
        ≤ tieProbAt errCdf margins (tieCdfBound errCdf margins p step k)
    ∧ tieProbAt errCdf margins (tieCdfBound errCdf margins p step k)
        ≤ tieProbAt errCdf margins ((k : ℕ) * step) := by
  obtain ⟨hk0, hqc, hmin⟩ := tieSearchFrom_spec errCdf margins p step fuel 0 k hfound
  have hqp : tieProbAt errCdf margins (((k - 1 : ℕ) : α) * step) < p := by
    rcases eq_or_lt_of_le (Nat.one_le_iff_ne_zero.mpr hk0.ne') with h1 | h1
    · rw [← h1]
      norm_num [tieProbAt_zero]
      exact hp
    · exact hmin (k - 1) (by omega) (by omega)
  set qp := tieProbAt errCdf margins (((k - 1 : ℕ) : α) * step) with hqpdef
  set qc := tieProbAt errCdf margins (((k : ℕ) : α) * step) with hqcdef
  have hd : 0 < qc - qp := sub_pos.mpr (lt_of_lt_of_le hqp hqc)
  have hfrac0 : 0 < (p - qp) / (qc - qp) := div_pos (sub_pos.mpr hqp) hd
  have hfrac1 : (p - qp) / (qc - qp) ≤ 1 :=
    (div_le_one hd).mpr (sub_le_sub_right hqc qp)
  have hcast : ((k : ℕ) : α) = ((k - 1 : ℕ) : α) + 1 := by
    have : (k - 1) + 1 = k := Nat.succ_pred_eq_of_pos hk0
    exact_mod_cast (congrArg (Nat.cast : ℕ → α) this).symm
  have hlow : ((k - 1 : ℕ) : α) * step ≤ tieCdfBound errCdf margins p step k := by
    unfold tieCdfBound
    rw [← hqpdef, ← hqcdef]
    nlinarith [mul_pos hfrac0 hstep]
  have hhigh : tieCdfBound errCdf margins p step k ≤ ((k : ℕ) : α) * step := by
    unfold tieCdfBound
    rw [← hqpdef, ← hqcdef, hcast]
    nlinarith [mul_le_mul_of_nonneg_right hfrac1 hstep.le]
  have hpos : 0 ≤ tieCdfBound errCdf margins p step k := by
    refine le_trans ?_ hlow
    positivity
  have hQmono := tieProbAt_mono errCdf margins hmono
  exact ⟨hpos, hlow, hhigh, hqc,
    fun j hj1 hj2 => hmin j hj1 hj2,
    hQmono hlow, hQmono hhigh⟩

/-- A concrete fitted CDF for the C5 refutation: the CDF of the uniform
distribution on `[m - 1/20, m + 1/20]` centered at the predicted margin `m`
(a monotone genuine CDF, standing in for a sharply concentrated error fit). -/
def errCdfU : ℚ → ℚ → ℚ := fun x m => max 0 (min 1 (10 * (x - m) + 1 / 2))

/-- Margin list of one eligible game with predicted margin 0. -/
def marginsC5 : List ℚ := [calibPredictedMargin (fun _ : Fin 2 => 0) 0 gQ]

/-- C5 (counterexample). With one eligible game of predicted margin 0, a
sharply concentrated error distribution, target tie probability `p = 1/2`
and step `Δ = 1/10`, the search crosses on its first candidate bound, the
interpolated bound is `1/20`, and the exactly recomputed aggregate tie
probability at that bound is 1 — at distance `1/2 > Δ` from `p`. -/
theorem tie_bound_within_step_counterexample :
    tieSearchFrom errCdfU marginsC5 (1 / 2) (1 / 10) 5 0 = some 1
    ∧ tieCdfBound errCdfU marginsC5 (1 / 2) (1 / 10) 1 = 1 / 20
    ∧ tieProbAt errCdfU marginsC5 (1 / 20) = 1
    ∧ ¬ |tieProbAt errCdfU marginsC5 (1 / 20) - 1 / 2| ≤ 1 / 10 := by
  have hm : marginsC5 = [0] := by
    norm_num [marginsC5, calibPredictedMargin, gQ]
  have hQ : ∀ b : ℚ, tieProbAt errCdfU marginsC5 b
      = errCdfU b 0 - errCdfU (-b) 0 := by
    intro b
    rw [hm]
    norm_num [tieProbAt]
  have hQ1 : tieProbAt errCdfU marginsC5 ((1 : ℚ) / 10) = 1 := by
    rw [hQ]
    norm_num [errCdfU]
  have hQ0 : tieProbAt errCdfU marginsC5 0 = 0 := tieProbAt_zero _ _
  have hQhalf : tieProbAt errCdfU marginsC5 ((1 : ℚ) / 20) = 1 := by
    rw [hQ]
    norm_num [errCdfU]
  refine ⟨?_, ?_, hQhalf, ?_⟩
  · rw [tieSearchFrom]
    rw [if_pos ?_]
    · push_cast
      rw [one_mul]
      rw [hQ1]
      norm_num
  · unfold tieCdfBound
    norm_num [hQ0, hQ1]
  · rw [hQhalf]
    rw [show (1 : ℚ) - 1 / 2 = 1 / 2 by norm_num]
    rw [abs_of_pos (by norm_num : (0 : ℚ) < 1 / 2)]
    norm_num

theorem tie_bound_interpolation_witness :
    tieSearchFrom errCdfU marginsC5 (1 / 2) (1 / 10) 5 0 = some 1
    ∧ (0 : ℚ) < 1 / 10 ∧ (0 : ℚ) < 1 / 2
    ∧ (∀ m ∈ marginsC5, Monotone (fun x => errCdfU x m))
    ∧ 0 ≤ tieCdfBound errCdfU marginsC5 (1 / 2) (1 / 10) 1 := by
  have hm : marginsC5 = [0] := by
    norm_num [marginsC5, calibPredictedMargin, gQ]
  have hQ1 : tieProbAt errCdfU marginsC5 ((1 : ℚ) / 10) = 1 := by
    rw [hm]
    norm_num [tieProbAt, errCdfU]
  have hfound : tieSearchFrom errCdfU marginsC5 (1 / 2) (1 / 10) 5 0 = some 1 := by
    rw [tieSearchFrom]
    rw [if_pos ?_]
    · push_cast
      rw [one_mul]
      rw [hQ1]
      norm_num
  have hmono : ∀ m ∈ marginsC5, Monotone (fun x => errCdfU x m) := by
    intro m _ a b hab
    simp only [errCdfU]
    exact max_le_max le_rfl (min_le_min le_rfl (by linarith))
  exact ⟨hfound, by norm_num, by norm_num, hmono,
    (tie_bound_interpolation errCdfU marginsC5 (1 / 2) (1 / 10) 5 1 hfound
      (by norm_num) (by norm_num) hmono).1⟩

/-- The total error as a function of the full rating state, used to express
the finitely-many-representable-values hypothesis of the termination
argument (in the floating-point execution the error takes values in the
finite set of IEEE doubles). -/
def errFn (cfg : RatingConfig α n) (games : List (Game α n)) :
    (Fin n → α) × (Fin n → α) × α → α :=
  fun q => absTotalError cfg games q.1 q.2.1 q.2.2

theorem updateRatings_isSome (cfg : RatingConfig α n) (games : List (Game α n))
    (hw : ∀ i, totalTeamWeight cfg games i ≠ 0)
    (hnn : totalNotNeutralWeight cfg games ≠ 0)
    (sRes s1 : AttemptState α n) (z : IterNoise α n) :
    ∃ s2, updateRatings cfg games sRes s1 z = some s2 := by
  unfold updateRatings
  rw [if_pos ⟨hw, hnn⟩]
  exact ⟨_, rfl⟩

theorem attemptStep_ne_crashed (cfg : RatingConfig α n) (games : List (Game α n))
    (hw : ∀ i, totalTeamWeight cfg games i ≠ 0)
    (hnn : totalNotNeutralWeight cfg games ≠ 0)
    (s : AttemptState α n) (z : IterNoise α n) :
    attemptStep cfg games s z ≠ .crashed := by
  unfold attemptStep
  split_ifs with hlt
  · obtain ⟨s2, h2⟩ := updateRatings_isSome cfg games hw hnn s (bookkeep cfg games s) z
    rw [h2]
    intro h
    cases h
  · intro h
    cases h

theorem runAttempt_ne_crashed (cfg : RatingConfig α n) (games : List (Game α n))
    (noise : ℕ → IterNoise α n)
    (hw : ∀ i, totalTeamWeight cfg games i ≠ 0)
    (hnn : totalNotNeutralWeight cfg games ≠ 0) (k : ℕ) :
    runAttempt cfg games noise k ≠ .crashed := by
  induction k with
  | zero => intro h; cases h
  | succ k ih =>
    cases hr : runAttempt cfg games noise k with
    | running s =>
      rw [runAttempt_succ_of_running cfg games noise k s hr]
      exact attemptStep_ne_crashed cfg games hw hnn s (noise k)
    | finished r =>
      rw [runAttempt_succ_of_finished cfg games noise k r hr]
      intro h
      cases h
    | crashed => exact absurd hr ih

theorem bookkeep_improve (cfg : RatingConfig α n) (games : List (Game α n))
    {s : AttemptState α n} (h : improves cfg games s) :
    (bookkeep cfg games s).sinceUpdate = 0
    ∧ (bookkeep cfg games s).bestErr
        = absTotalError cfg games s.curOff s.curDef s.curHomeAdv := by
  unfold bookkeep
  rw [if_pos h]
  exact ⟨rfl, rfl⟩

theorem bookkeep_noimprove (cfg : RatingConfig α n) (games : List (Game α n))
    {s : AttemptState α n} (h : ¬ improves cfg games s) :
    (bookkeep cfg games s).sinceUpdate = s.sinceUpdate + 1
    ∧ (bookkeep cfg games s).bestErr = s.bestErr := by
  unfold bookkeep
  rw [if_neg h]
  split_ifs <;> exact ⟨rfl, rfl⟩

theorem attemptStep_running_elim (cfg : RatingConfig α n)
    (games : List (Game α n)) {s : AttemptState α n} {z : IterNoise α n}
    {s' : AttemptState α n} (h : attemptStep cfg games s z = .running s') :
    (bookkeep cfg games s).sinceUpdate < cfg.iterationsBeforeStop
    ∧ s'.sinceUpdate = (bookkeep cfg games s).sinceUpdate
    ∧ s'.bestErr = (bookkeep cfg games s).bestErr
    ∧ s'.firstIteration = false := by
  unfold attemptStep at h
  split_ifs at h with hlt
  cases hup : updateRatings cfg games s (bookkeep cfg games s) z with
  | none => rw [hup] at h; cases h
  | some s2 =>
    rw [hup] at h
    cases h
    unfold updateRatings at hup
    split_ifs at hup
    cases hup
    exact ⟨hlt, rfl, rfl, rfl⟩

theorem attemptStep_finished_elim (cfg : RatingConfig α n)
    (games : List (Game α n)) (hstop : 0 < cfg.iterationsBeforeStop)
    {s : AttemptState α n} {z : IterNoise α n} {r : AttemptResult α n}
    (h : attemptStep cfg games s z = .finished r) :
    r.bestOff = s.bestOff ∧ r.bestDef = s.bestDef
    ∧ r.bestRating = s.bestRating ∧ r.bestHomeAdvantage = s.bestHomeAdv := by
  unfold attemptStep at h
  split_ifs at h with hlt
  · cases hup : updateRatings cfg games s (bookkeep cfg games s) z with
    | none => rw [hup] at h; cases h
    | some s2 => rw [hup] at h; cases h
  · cases h
    have hni : ¬ improves cfg games s := by
      intro himp
      apply hlt
      have h0 : (bookkeep cfg games s).sinceUpdate = 0 :=
        (bookkeep_improve cfg games himp).1
      rw [h0]
      exact hstop
    unfold bookkeep
    rw [if_neg hni]
    split_ifs <;> exact ⟨rfl, rfl, rfl, rfl⟩

/-- C9. Under the non-degeneracy guards of §7 (no team and no site class with
zero total weight, a positive stop threshold) and the fact that the error
metric ranges over finitely many representable values, every rating attempt
terminates: some iteration count yields the finished status; moreover the
iteration that finishes — the one whose counter has reached the stop
threshold — returns exactly the best state found so far (best offense,
defense and overall arrays and best home advantage), not the current,
possibly drifted, state. -/
theorem attempt_terminates_with_best (cfg : RatingConfig α n)
    (games : List (Game α n)) (noise : ℕ → IterNoise α n)
    (hw : ∀ i, totalTeamWeight cfg games i ≠ 0)
    (hnn : totalNotNeutralWeight cfg games ≠ 0)
    (hstop : 0 < cfg.iterationsBeforeStop)
    (hfin : (Set.range (errFn cfg games)).Finite) :
    (∃ k r, runAttempt cfg games noise k = .finished r)
    ∧ (∀ k s r, runAttempt cfg games noise k = .running s →
        attemptStep cfg games s (noise k) = .finished r →
        r.bestOff = s.bestOff ∧ r.bestDef = s.bestDef
        ∧ r.bestRating = s.bestRating ∧ r.bestHomeAdvantage = s.bestHomeAdv) := by
  refine ⟨?_, fun k s r _ hstep => attemptStep_finished_elim cfg games hstop hstep⟩
  by_contra hno
  push_neg at hno
  have hrunning : ∀ k, ∃ s, runAttempt cfg games noise k = .running s := by
    intro k
    cases h : runAttempt cfg games noise k with
    | running s => exact ⟨s, rfl⟩
    | finished r => exact absurd h (hno k r)
    | crashed => exact absurd h (runAttempt_ne_crashed cfg games noise hw hnn k)
  choose S hS using hrunning
  have hstepk : ∀ k, attemptStep cfg games (S k) (noise k) = .running (S (k + 1)) := by
    intro k
    have h1 := hS (k + 1)
    rw [runAttempt_succ_of_running cfg games noise k (S k) (hS k)] at h1
    exact h1
  have hS0 : S 0 = initialState α n := by
    have h0 := hS 0
    rw [runAttempt] at h0
    injection h0 with h
    exact h.symm
  have hlt : ∀ k, (bookkeep cfg games (S k)).sinceUpdate < cfg.iterationsBeforeStop :=
    fun k => (attemptStep_running_elim cfg games (hstepk k)).1
  have hcnt : ∀ k, (S (k + 1)).sinceUpdate = (bookkeep cfg games (S k)).sinceUpdate :=
    fun k => (attemptStep_running_elim cfg games (hstepk k)).2.1
  have herr : ∀ k, (S (k + 1)).bestErr = (bookkeep cfg games (S k)).bestErr :=
    fun k => (attemptStep_running_elim cfg games (hstepk k)).2.2.1
  have hfirstk : ∀ k, (S (k + 1)).firstIteration = false :=
    fun k => (attemptStep_running_elim cfg games (hstepk k)).2.2.2
  -- improvements occur beyond every index, else the counter reaches the stop
  -- threshold and the attempt would have finished
  have himp_beyond : ∀ k, ∃ j, k ≤ j ∧ improves cfg games (S j) := by
    intro k
    by_contra hnoimp
    push_neg at hnoimp
    have hgrow : ∀ m, m ≤ (S (k + m)).sinceUpdate := by
      intro m
      induction m with
      | zero => exact Nat.zero_le _
      | succ m ih =>
        have hni := hnoimp (k + m) (Nat.le_add_right k m)
        have hsucc : (S (k + m + 1)).sinceUpdate = (S (k + m)).sinceUpdate + 1 :=
          (hcnt (k + m)).trans (bookkeep_noimprove cfg games hni).1
        have : k + (m + 1) = (k + m) + 1 := rfl
        rw [this, hsucc]
        exact Nat.succ_le_succ ih
    have hbound : ∀ j, (S (j + 1)).sinceUpdate < cfg.iterationsBeforeStop :=
      fun j => (hcnt j) ▸ hlt j
    have h1 : cfg.iterationsBeforeStop
        ≤ (S (k + cfg.iterationsBeforeStop)).sinceUpdate := hgrow _
    have h2 : (S (k + cfg.iterationsBeforeStop)).sinceUpdate
        < cfg.iterationsBeforeStop := by
      have hk1 : k + cfg.iterationsBeforeStop
          = (k + cfg.iterationsBeforeStop - 1) + 1 := by omega
      rw [hk1]
      exact hbound _
    omega
  have herrstep : ∀ k, (improves cfg games (S k) ∧ (S (k + 1)).bestErr
        = absTotalError cfg games (S k).curOff (S k).curDef (S k).curHomeAdv)
      ∨ (¬ improves cfg games (S k) ∧ (S (k + 1)).bestErr = (S k).bestErr) := by
    intro k
    by_cases h : improves cfg games (S k)
    · exact Or.inl ⟨h, (herr k).trans (bookkeep_improve cfg games h).2⟩
    · exact Or.inr ⟨h, (herr k).trans (bookkeep_noimprove cfg games h).2⟩
  have hmem : ∀ k, (S (k + 1)).bestErr ∈ Set.range (errFn cfg games) := by
    intro k
    induction k with
    | zero =>
      rcases herrstep 0 with ⟨_, he⟩ | ⟨hni, _⟩
      · exact ⟨((S 0).curOff, (S 0).curDef, (S 0).curHomeAdv), he.symm⟩
      · exact absurd (Or.inl (by rw [hS0]; rfl)) hni
    | succ k ih =>
      rcases herrstep (k + 1) with ⟨_, he⟩ | ⟨_, he⟩
      · exact ⟨((S (k + 1)).curOff, (S (k + 1)).curDef, (S (k + 1)).curHomeAdv),
          he.symm⟩
      · rw [he]
        exact ih
  have hanti : Antitone fun k => (S (k + 1)).bestErr := by
    apply antitone_nat_of_succ_le
    intro k
    rcases herrstep (k + 1) with ⟨himp, he⟩ | ⟨_, he⟩
    · rcases himp with hfi | hlt'
      · rw [hfirstk k] at hfi
        cases hfi
      · rw [he]
        exact hlt'.le
    · rw [he]
  have hEfin : (Set.range fun k => (S (k + 1)).bestErr).Finite :=
    hfin.subset (by rintro x ⟨k, rfl⟩; exact hmem k)
  obtain ⟨b, hbmem, hbmin⟩ :=
    Set.exists_min_image _ id hEfin ⟨(S 1).bestErr, 0, rfl⟩
  obtain ⟨K, hbK⟩ := hbmem
  have hconst : ∀ j, K ≤ j → (S (j + 1)).bestErr = b := by
    intro j hj
    refine le_antisymm ?_ ?_
    · rw [← hbK]
      exact hanti hj
    · exact hbmin _ ⟨j, rfl⟩
  obtain ⟨j, hjK, himpj⟩ := himp_beyond (K + 1)
  obtain ⟨m, rfl⟩ : ∃ m, j = m + 1 := ⟨j - 1, by omega⟩
  rcases himpj with hfi | hlt'
  · rw [hfirstk m] at hfi
    cases hfi
  · have he1 : (S (m + 2)).bestErr = absTotalError cfg games (S (m + 1)).curOff
        (S (m + 1)).curDef (S (m + 1)).curHomeAdv := by
      rcases herrstep (m + 1) with ⟨_, he⟩ | ⟨hni, _⟩
      · exact he
      · exact absurd (Or.inr hlt') hni
    have hc1 : (S (m + 1)).bestErr = b := hconst m (by omega)
    have hc2 : (S (m + 2)).bestErr = b := hconst (m + 1) (by omega)
    rw [hc1] at hlt'
    rw [hc2] at he1
    rw [← he1] at hlt'
    exact lt_irrefl b hlt'

theorem attempt_terminates_with_best_witness :
    (∀ i, totalTeamWeight cfgQ gamesQ i ≠ 0)
    ∧ totalNotNeutralWeight cfgQ gamesQ ≠ 0
    ∧ 0 < cfgQ.iterationsBeforeStop
    ∧ (Set.range (errFn cfgQ gamesQ)).Finite
    ∧ (∃ k r, runAttempt cfgQ gamesQ noiseQ k = .finished r) := by
  have hw : ∀ i, totalTeamWeight cfgQ gamesQ i ≠ 0 := by
    intro i
    fin_cases i <;>
      norm_num [totalTeamWeight, gamesQ, gQ, gtWeight, policyWeight,
        centralityKey, cfgQ]
  have hnn : totalNotNeutralWeight cfgQ gamesQ ≠ 0 := by
    norm_num [totalNotNeutralWeight, gamesQ, gQ, gtWeight, policyWeight,
      centralityKey, cfgQ]
  have hfin : (Set.range (errFn cfgQ gamesQ)).Finite := by
    have hcdf : ∀ a b c : ℚ, normCdf cfgQ a b c = 0 := fun _ _ _ => rfl
    have hsub : Set.range (errFn cfgQ gamesQ) ⊆ {0} := by
      rintro x ⟨q, rfl⟩
      have hq : errFn cfgQ gamesQ q = 0 := by
        simp [errFn, absTotalError, hcdf]
      simp [hq]
    exact (Set.finite_singleton 0).subset hsub
  have hstop : 0 < cfgQ.iterationsBeforeStop := by norm_num [cfgQ]
  exact ⟨hw, hnn, hstop, hfin,
    (attempt_terminates_with_best cfgQ gamesQ noiseQ hw hnn hstop hfin).1⟩

end Tiger
